import Mathlib

/-!
Shallow embedding of `src/main.py` (class `StudentManagementSystem`) of the
Student-Management-System repository, together with proofs of the spec claims.

Modelling conventions:
* A Python student dict `{"roll_number": r, "name": n, "age": a, "cgpa": c}`
  becomes the `Student` structure with fields in declaration order.
* Python `int` becomes `Int`; Python `float` (only `cgpa`) is modelled as `ℚ`.
  Every float literal the program compares against (`0.0`, `4.0`, `2.0`,
  `3.0`, `3.5`) is exactly representable in binary floating point, so exact
  rational arithmetic is a faithful model of the comparisons performed.
* The in-memory collection `self.students` is a `List Student`; in-place
  mutation becomes a function from the old list to the new list.
* Console interaction (prompt loops that repeat until a validator accepts)
  is modelled by its outcome: an operation either runs on validated input or
  leaves the collection unchanged.
-/

/-- One student record, the fields in the declaration order of the dict
built in `add_student` (main.py lines 118-123). -/
structure Student where
  roll_number : Int
  name : String
  age : Int
  cgpa : ℚ
deriving DecidableEq, Repr

/-- `validate_name` (main.py lines 55-57): non-empty after stripping, and
every character a letter or whitespace. -/
def validate_name (name : String) : Bool :=
  name.trim ≠ "" && name.data.all (fun c => c.isAlpha || c.isWhitespace)

/-- `validate_roll_number` (main.py lines 59-64): positive and not already
present in the current collection. -/
def validate_roll_number (students : List Student) (roll_number : Int) : Bool :=
  roll_number > 0 && !(students.any (fun student => student.roll_number == roll_number))

/-- `validate_age` (main.py lines 66-68): `5 <= age <= 120`. -/
def validate_age (age : Int) : Bool :=
  5 ≤ age && age ≤ 120

/-- `validate_cgpa` (main.py lines 70-72): `0.0 <= cgpa <= 4.0`. -/
def validate_cgpa (cgpa : ℚ) : Bool :=
  0 ≤ cgpa && cgpa ≤ 4

/-- `add_student` (main.py lines 74-126): each field is re-prompted until its
validator accepts (name, roll number against the current collection, age,
cgpa), then the record is appended at the end of the collection. A candidate
record whose fields do not all validate is never appended (the prompt loops
instead), modelled by leaving the collection unchanged. -/
def add_student (l : List Student) (s : Student) : List Student :=
  if validate_name s.name && validate_roll_number l s.roll_number &&
      validate_age s.age && validate_cgpa s.cgpa then
    l ++ [s]
  else l

/-- The three updatable fields offered by `update_student` (main.py lines
242-267) together with the proposed new value; the menu offers no way to
change `roll_number`. -/
inductive FieldUpdate where
  | name (v : String)
  | age (v : Int)
  | cgpa (v : ℚ)
deriving DecidableEq, Repr

/-- The validator `update_student` applies to the proposed new value
(main.py lines 244, 253, 262). -/
def fieldUpdateValid : FieldUpdate → Bool
  | FieldUpdate.name v => validate_name v
  | FieldUpdate.age v => validate_age v
  | FieldUpdate.cgpa v => validate_cgpa v

/-- `update_student` acting on the record at position `i` (main.py lines
239-276): if the record exists and the new value passes that field's
validator, the one field is mutated in place and a save is triggered
(`Bool` result `true`); otherwise nothing changes and no save happens. -/
def update_field (l : List Student) (i : Nat) (u : FieldUpdate) :
    List Student × Bool :=
  match l[i]? with
  | none => (l, false)
  | some s =>
    match u with
    | FieldUpdate.name v =>
      if validate_name v then (l.set i { s with name := v }, true) else (l, false)
    | FieldUpdate.age v =>
      if validate_age v then (l.set i { s with age := v }, true) else (l, false)
    | FieldUpdate.cgpa v =>
      if validate_cgpa v then (l.set i { s with cgpa := v }, true) else (l, false)

/-- `delete_student` (main.py lines 287-293): Python `list.remove(student)`
removes the first element of the collection equal to the given record. -/
def delete_student (l : List Student) (s : Student) : List Student :=
  match l with
  | [] => []
  | x :: xs => if x = s then xs else x :: delete_student xs s

/-- The four sort criteria of `sort_students` (main.py lines 311-331). -/
inductive SortKey where
  | roll
  | name
  | age
  | cgpa
deriving DecidableEq, Repr

/-- The comparator each menu choice passes to `list.sort` (main.py lines
314-325): roll number ascending, lower-cased name ascending, age ascending,
cgpa descending (`reverse=True`). -/
def sortKeyLe : SortKey → Student → Student → Bool
  | SortKey.roll, s, t => decide (s.roll_number ≤ t.roll_number)
  | SortKey.name, s, t => decide (s.name.toLower ≤ t.name.toLower)
  | SortKey.age, s, t => decide (s.age ≤ t.age)
  | SortKey.cgpa, s, t => decide (t.cgpa ≤ s.cgpa)

/-- `sort_students` (main.py lines 311-331): Python `list.sort` is a stable
sort by the chosen comparator, modelled by the stable `List.mergeSort`. -/
def sort_students (k : SortKey) (l : List Student) : List Student :=
  l.mergeSort (sortKeyLe k)

/-- One collection-mutating user action of the menu loop (choices 1, 4, 5, 6
in `run`, main.py lines 431-449). -/
inductive Op where
  | add (s : Student)
  | update (i : Nat) (u : FieldUpdate)
  | del (s : Student)
  | sort (k : SortKey)

/-- Effect of one mutating action on the collection. -/
def applyOp (l : List Student) : Op → List Student
  | Op.add s => add_student l s
  | Op.update i u => (update_field l i u).1
  | Op.del s => delete_student l s
  | Op.sort k => sort_students k l

/-- The collections reachable by the program: it starts from the empty
collection and applies mutating actions one at a time. -/
inductive Reachable : List Student → Prop where
  | nil : Reachable []
  | step (l : List Student) (op : Op) : Reachable l → Reachable (applyOp l op)

/-- The age-bucket counters of `show_statistics` (main.py line 376). -/
structure AgeGroups where
  lt18 : Nat
  g18_22 : Nat
  g23_25 : Nat
  gt25 : Nat
deriving DecidableEq, Repr

/-- One iteration of the age-bucket loop of `show_statistics` (main.py lines
377-381): the `if age < 18 / elif 18 <= age <= 22 / elif 23 <= age <= 25 /
else` chain increments exactly one counter. -/
def ageBump (g : AgeGroups) (age : Int) : AgeGroups :=
  if age < 18 then { g with lt18 := g.lt18 + 1 }
  else if 18 ≤ age ∧ age ≤ 22 then { g with g18_22 := g.g18_22 + 1 }
  else if 23 ≤ age ∧ age ≤ 25 then { g with g23_25 := g.g23_25 + 1 }
  else { g with gt25 := g.gt25 + 1 }

/-- The age distribution of `show_statistics` over the ages of the
collection (main.py lines 374-381). -/
def age_distribution (ages : List Int) : AgeGroups :=
  ages.foldl ageBump ⟨0, 0, 0, 0⟩

/-- The CGPA-bucket counters of `show_statistics` (main.py line 390); key
`"2.0-2.9"` has code condition `2.0 <= cgpa < 3.0`, key `"3.0-3.5"` has code
condition `3.0 <= cgpa < 3.5`, and the `else` branch is reported `">3.5"`. -/
structure CgpaGroups where
  lt20 : Nat
  g20_29 : Nat
  g30_35 : Nat
  gt35 : Nat
deriving DecidableEq, Repr

/-- One iteration of the CGPA-bucket loop of `show_statistics` (main.py
lines 391-395). -/
def cgpaBump (g : CgpaGroups) (cgpa : ℚ) : CgpaGroups :=
  if cgpa < 2 then { g with lt20 := g.lt20 + 1 }
  else if 2 ≤ cgpa ∧ cgpa < 3 then { g with g20_29 := g.g20_29 + 1 }
  else if 3 ≤ cgpa ∧ cgpa < 7/2 then { g with g30_35 := g.g30_35 + 1 }
  else { g with gt35 := g.gt35 + 1 }

/-- The CGPA distribution of `show_statistics` over the cgpas of the
collection (main.py lines 388-395). -/
def cgpa_distribution (cgpas : List ℚ) : CgpaGroups :=
  cgpas.foldl cgpaBump ⟨0, 0, 0, 0⟩

/-- A JSON number as Python's `json` module distinguishes them: `int`
literals load as `int`, float literals as `float` (modelled exactly as ℚ;
`json.dump` emits `repr(float)`, which round-trips the value exactly). -/
inductive JNum where
  | int (n : Int)
  | float (q : ℚ)
deriving DecidableEq, Repr

/-- A JSON value, as far as this program's data goes. -/
inductive JValue where
  | num (n : JNum)
  | str (s : String)
  | arr (items : List JValue)
  | obj (fields : List (String × JValue))
deriving Repr

/-- The JSON object `json.dump` writes for one student dict (main.py lines
40-41, 118-123): keys in dict insertion order, `roll_number` and `age` as
JSON integers, `name` as a string, `cgpa` as a JSON float. -/
def student_to_json (s : Student) : JValue :=
  JValue.obj
    [("roll_number", JValue.num (JNum.int s.roll_number)),
     ("name", JValue.str s.name),
     ("age", JValue.num (JNum.int s.age)),
     ("cgpa", JValue.num (JNum.float s.cgpa))]

/-- `save_students` (main.py lines 37-49): the collection is serialized as a
JSON array of student objects, one per record, in collection order. -/
def save_students_json (l : List Student) : JValue :=
  JValue.arr (l.map student_to_json)

/-- Reading back one student dict from the parsed JSON, as `load_students`
(main.py lines 26-35) hands `json.load`'s output to the rest of the program:
a four-key object in the written key order with the written numeric kinds. -/
def student_from_json : JValue → Option Student
  | JValue.obj
      [("roll_number", JValue.num (JNum.int r)),
       ("name", JValue.str n),
       ("age", JValue.num (JNum.int a)),
       ("cgpa", JValue.num (JNum.float c))] => some ⟨r, n, a, c⟩
  | _ => none

/-- The collection recovered from a parsed JSON document. -/
def load_students_json : JValue → Option (List Student)
  | JValue.arr items => items.mapM student_from_json
  | _ => none

/-- What the file system presents to `load_students` (main.py lines 26-35):
the data file may be absent, present but failing to read or parse (any
exception), or present with a parsed collection. -/
inductive LoadSource where
  | missing
  | failure (msg : String)
  | parsed (data : List Student)

/-- `load_students` (main.py lines 26-35): returns the parsed collection; an
absent file yields `[]` (line 32), and any read or parse exception is caught,
reported, and yields `[]` (lines 33-35) — the function always returns. -/
def load_students : LoadSource → List Student
  | LoadSource.missing => []
  | LoadSource.failure _ => []
  | LoadSource.parsed data => data

/-- The CSV header fields `export_to_csv` uses (main.py line 350):
`self.students[0].keys()`, i.e. the dict keys in insertion order. -/
def csv_field_names : List String := ["roll_number", "name", "age", "cgpa"]

/-- Minimal CSV quoting as `csv.writer` applies by default: a field is quoted
(with inner quotes doubled) only if it contains the delimiter, the quote
character, or a line-terminator character. -/
def csvQuote (s : String) : String :=
  if s.contains ',' || s.contains '"' || s.contains '\n' || s.contains '\r' then
    "\"" ++ (s.replace "\"" "\"\"") ++ "\""
  else s

/-- Textual form of a float field in the CSV output; models Python's
`str(float)` (the exact digit string is irrelevant to the claims). -/
def float_repr (q : ℚ) : String := toString q

/-- One CSV data row of `export_to_csv` (main.py line 352): the four field
values of one record, comma-separated, in field declaration order. -/
def csvRow (s : Student) : String :=
  String.intercalate ","
    [toString s.roll_number, csvQuote s.name, toString s.age, float_repr s.cgpa]

/-- `export_to_csv` (main.py lines 339-355): on an empty collection no file
is written and a "No students to export." message is shown (modelled by
`Except.error msg`); otherwise the written file is the header row followed by
one row per record in collection order (modelled by the list of lines). -/
def export_to_csv (l : List Student) : Except String (List String) :=
  if l.isEmpty then Except.error "No students to export."
  else Except.ok (String.intercalate "," csv_field_names :: l.map csvRow)

/-! ## Theorems -/

/-- C3: `validate_age(a)` is true iff `5 ≤ a ≤ 120` and `validate_cgpa(c)` is
true iff `0.0 ≤ c ≤ 4.0`; the boundary values 5, 120, 0.0 and 4.0 are accepted
and 4, 121, -0.01 and 4.01 are rejected. -/
theorem validate_age_cgpa_iff_bounds :
    (∀ a : Int, validate_age a = true ↔ 5 ≤ a ∧ a ≤ 120) ∧
    (∀ c : ℚ, validate_cgpa c = true ↔ 0 ≤ c ∧ c ≤ 4) ∧
    validate_age 5 = true ∧ validate_age 120 = true ∧
    validate_cgpa 0 = true ∧ validate_cgpa 4 = true ∧
    validate_age 4 = false ∧ validate_age 121 = false ∧
    validate_cgpa (-(1/100)) = false ∧ validate_cgpa (401/100) = false := by
  refine ⟨fun a => ?_, fun c => ?_, ?_, ?_, ?_, ?_, ?_, ?_, ?_, ?_⟩
  · simp [validate_age]
  · simp [validate_cgpa]
  · decide
  · decide
  · norm_num [validate_cgpa]
  · norm_num [validate_cgpa]
  · decide
  · decide
  · norm_num [validate_cgpa]
  · norm_num [validate_cgpa]

theorem sortKeyLe_trans (k : SortKey) : ∀ a b c : Student,
    sortKeyLe k a b → sortKeyLe k b c → sortKeyLe k a c := by
  cases k <;> intro a b c hab hbc <;>
    simp only [sortKeyLe, decide_eq_true_eq] at * <;>
    first
      | exact le_trans hab hbc
      | exact le_trans hbc hab

theorem sortKeyLe_total (k : SortKey) : ∀ a b : Student,
    sortKeyLe k a b || sortKeyLe k b a := by
  cases k <;> intro a b <;>
    simp only [sortKeyLe, Bool.or_eq_true, decide_eq_true_eq] <;>
    exact le_total _ _

/-- C4: for a non-empty collection and any of the four sort keys, sorting
keeps the collection size unchanged; it is stable (a pair of records tied
under the comparator keeps its prior relative order); and after sorting by
CGPA descending the first record has the maximum cgpa of the collection. -/
theorem sort_students_spec (k : SortKey) (l : List Student) (hne : l ≠ []) :
    (sort_students k l).length = l.length ∧
    (∀ a b : Student, sortKeyLe k a b = true → sortKeyLe k b a = true →
      [a, b].Sublist l → [a, b].Sublist (sort_students k l)) ∧
    (∀ h : Student, (sort_students SortKey.cgpa l).head? = some h →
      ∀ s ∈ l, s.cgpa ≤ h.cgpa) := by
  refine ⟨List.length_mergeSort l, ?_, ?_⟩
  · intro a b hab hba hsub
    exact List.pair_sublist_mergeSort (sortKeyLe_trans k) (sortKeyLe_total k) hab hsub
  · intro h hh s hs
    have hp := List.sorted_mergeSort
      (sortKeyLe_trans SortKey.cgpa) (sortKeyLe_total SortKey.cgpa) l
    have hs' : s ∈ sort_students SortKey.cgpa l := by
      exact List.mem_mergeSort.mpr hs
    rcases e : sort_students SortKey.cgpa l with _ | ⟨x, t⟩
    · rw [e] at hh; simp at hh
    · rw [e] at hh
      simp only [List.head?_cons, Option.some.injEq] at hh
      subst hh
      rw [sort_students] at e
      rw [e] at hp
      rw [sort_students, e] at hs'
      cases hs' with
      | head => exact le_refl _
      | tail _ hmem =>
        have := (List.pairwise_cons.mp hp).1 s hmem
        simpa [sortKeyLe] using this

/-- Concrete witness record used by the witness theorems. -/
def wStudentA : Student := ⟨1, "Ann Lee", 20, 3⟩

/-- Second concrete witness record. -/
def wStudentB : Student := ⟨2, "Bob", 21, 2⟩

/-- Witness for `sort_students_spec` at a concrete two-record collection. -/
theorem sort_students_spec_witness :
    (sort_students SortKey.cgpa [wStudentA, wStudentB]).length =
      [wStudentA, wStudentB].length :=
  (sort_students_spec SortKey.cgpa [wStudentA, wStudentB]
    (List.cons_ne_nil _ _)).1

theorem ageBump_foldl_sum (ages : List Int) (g : AgeGroups) :
    (ages.foldl ageBump g).lt18 + (ages.foldl ageBump g).g18_22 +
      (ages.foldl ageBump g).g23_25 + (ages.foldl ageBump g).gt25 =
    g.lt18 + g.g18_22 + g.g23_25 + g.gt25 + ages.length := by
  induction ages generalizing g with
  | nil => simp
  | cons a as ih =>
    rw [List.foldl_cons, ih]
    unfold ageBump
    split_ifs <;> simp <;> omega

theorem cgpaBump_foldl_sum (cgpas : List ℚ) (g : CgpaGroups) :
    (cgpas.foldl cgpaBump g).lt20 + (cgpas.foldl cgpaBump g).g20_29 +
      (cgpas.foldl cgpaBump g).g30_35 + (cgpas.foldl cgpaBump g).gt35 =
    g.lt20 + g.g20_29 + g.g30_35 + g.gt35 + cgpas.length := by
  induction cgpas generalizing g with
  | nil => simp
  | cons c cs ih =>
    rw [List.foldl_cons, ih]
    unfold cgpaBump
    split_ifs <;> simp <;> omega

/-- C6: for a non-empty collection, the four age-bucket counts of
`show_statistics` sum to the total record count, and so do the four
CGPA-bucket counts: every record lands in exactly one bucket of each
distribution. -/
theorem show_statistics_bucket_sums (l : List Student) (hne : l ≠ []) :
    (age_distribution (l.map Student.age)).lt18 +
      (age_distribution (l.map Student.age)).g18_22 +
      (age_distribution (l.map Student.age)).g23_25 +
      (age_distribution (l.map Student.age)).gt25 = l.length ∧
    (cgpa_distribution (l.map Student.cgpa)).lt20 +
      (cgpa_distribution (l.map Student.cgpa)).g20_29 +
      (cgpa_distribution (l.map Student.cgpa)).g30_35 +
      (cgpa_distribution (l.map Student.cgpa)).gt35 = l.length := by
  constructor
  · have h := ageBump_foldl_sum (l.map Student.age) ⟨0, 0, 0, 0⟩
    simpa [age_distribution] using h
  · have h := cgpaBump_foldl_sum (l.map Student.cgpa) ⟨0, 0, 0, 0⟩
    simpa [cgpa_distribution] using h

/-- Witness for `show_statistics_bucket_sums` at a concrete collection. -/
theorem show_statistics_bucket_sums_witness :
    (age_distribution ([wStudentA].map Student.age)).lt18 +
      (age_distribution ([wStudentA].map Student.age)).g18_22 +
      (age_distribution ([wStudentA].map Student.age)).g23_25 +
      (age_distribution ([wStudentA].map Student.age)).gt25 =
      [wStudentA].length :=
  (show_statistics_bucket_sums [wStudentA] (List.cons_ne_nil _ _)).1

/-- C10: in the CGPA distribution of `show_statistics`, a cgpa of exactly 3.5
is counted in the `">3.5"` bucket and leaves the `"3.0-3.5"` bucket (code
condition `3.0 <= cgpa < 3.5`) untouched; and any cgpa strictly between 2.9
and 3.0 is counted in the `"2.0-2.9"` bucket (code condition
`2.0 <= cgpa < 3.0`). -/
theorem cgpa_bucket_boundaries :
    (∀ g : CgpaGroups,
      cgpaBump g (7/2) = { g with gt35 := g.gt35 + 1 } ∧
      (cgpaBump g (7/2)).g30_35 = g.g30_35) ∧
    (∀ g : CgpaGroups, ∀ c : ℚ, 29/10 < c → c < 3 →
      cgpaBump g c = { g with g20_29 := g.g20_29 + 1 }) := by
  constructor
  · intro g
    have h1 : ¬ (7/2 : ℚ) < 2 := by norm_num
    have h2 : ¬ ((2 : ℚ) ≤ 7/2 ∧ (7/2 : ℚ) < 3) := by norm_num
    have h3 : ¬ ((3 : ℚ) ≤ 7/2 ∧ (7/2 : ℚ) < 7/2) := by norm_num
    simp only [cgpaBump, if_neg h1, if_neg h2, if_neg h3]
    exact ⟨trivial, trivial⟩
  · intro g c h1 h2
    have hc2 : ¬ c < 2 := by linarith
    have hcc : 2 ≤ c ∧ c < 3 := ⟨by linarith, h2⟩
    simp only [cgpaBump, if_neg hc2, if_pos hcc]

/-- Witness for `cgpa_bucket_boundaries` at the concrete cgpa 2.95. -/
theorem cgpa_bucket_boundaries_witness :
    cgpaBump ⟨0, 0, 0, 0⟩ (295/100) =
      { CgpaGroups.mk 0 0 0 0 with g20_29 := 0 + 1 } :=
  cgpa_bucket_boundaries.2 ⟨0, 0, 0, 0⟩ (295/100) (by norm_num) (by norm_num)

/-- Two distinct records sharing roll number 1: such a collection cannot
arise through the program's own operations, but the delete claim as stated
quantifies over every collection containing the record. -/
def dupStudentA : Student := ⟨1, "Ann Lee", 20, 3⟩

/-- Second record with the same roll number as `dupStudentA`. -/
def dupStudentB : Student := ⟨1, "Bob", 21, 2⟩

/-- C5 counterexample: deleting `dupStudentA` from `[dupStudentA,
dupStudentB]` removes one record, yet a record with the deleted roll number
1 is still present afterwards, so the unqualified claim is false. -/
theorem delete_student_roll_absent_fails :
    dupStudentA ∈ [dupStudentA, dupStudentB] ∧
    delete_student [dupStudentA, dupStudentB] dupStudentA = [dupStudentB] ∧
    ¬ (∀ t ∈ delete_student [dupStudentA, dupStudentB] dupStudentA,
        t.roll_number ≠ dupStudentA.roll_number) := by
  refine ⟨by decide, by decide, fun h => ?_⟩
  have hb : dupStudentB ∈ delete_student [dupStudentA, dupStudentB] dupStudentA := by
    decide
  exact h dupStudentB hb (by decide)

/-- C5 (amended): in a collection whose roll numbers are pairwise distinct —
the standing invariant of every collection the program itself builds — 
deleting a contained record removes exactly one occurrence of it, decreases
the size by exactly one, and afterwards no record carries the deleted
record's roll number. -/
theorem delete_student_spec (l : List Student) (s : Student)
    (hmem : s ∈ l) (hnd : (l.map Student.roll_number).Nodup) :
    l.Perm (s :: delete_student l s) ∧
    (delete_student l s).length + 1 = l.length ∧
    ∀ t ∈ delete_student l s, t.roll_number ≠ s.roll_number := by
  induction l with
  | nil => cases hmem
  | cons x xs ih =>
    simp only [List.map_cons, List.nodup_cons] at hnd
    rw [delete_student]
    by_cases hxs : x = s
    · subst hxs
      rw [if_pos rfl]
      refine ⟨List.Perm.refl _, rfl, ?_⟩
      intro t ht heq
      exact hnd.1 (heq ▸ List.mem_map_of_mem Student.roll_number ht)
    · rw [if_neg hxs]
      have hmem' : s ∈ xs := by
        cases hmem with
        | head => exact absurd rfl hxs
        | tail _ h => exact h
      obtain ⟨hperm, hlen, habs⟩ := ih hmem' hnd.2
      refine ⟨?_, ?_, ?_⟩
      · exact (hperm.cons x).trans (List.Perm.swap s x _)
      · simpa using hlen
      · intro t ht heq
        cases ht with
        | head =>
          exact hnd.1 (heq ▸ List.mem_map_of_mem Student.roll_number hmem')
        | tail _ h => exact habs t h heq

/-- Witness for `delete_student_spec` at a concrete two-record collection. -/
theorem delete_student_spec_witness :
    (delete_student [wStudentA, wStudentB] wStudentB).length + 1 =
      ([wStudentA, wStudentB] : List Student).length :=
  (delete_student_spec [wStudentA, wStudentB] wStudentB (by decide) (by decide)).2.1

theorem update_field_none (l : List Student) (i : Nat) (u : FieldUpdate)
    (hi : l[i]? = none) : update_field l i u = (l, false) := by
  simp only [update_field, hi]

theorem update_field_invalid (l : List Student) (i : Nat) (u : FieldUpdate)
    (hv : fieldUpdateValid u = false) : update_field l i u = (l, false) := by
  unfold update_field
  cases hi : l[i]? with
  | none => rfl
  | some s0 =>
    cases u with
    | name v => simp only [fieldUpdateValid] at hv; simp [hv]
    | age v => simp only [fieldUpdateValid] at hv; simp [hv]
    | cgpa v => simp only [fieldUpdateValid] at hv; simp [hv]

theorem update_field_valid_name (l : List Student) (i : Nat) (s0 : Student)
    (v : String) (hi : l[i]? = some s0) (hv : validate_name v = true) :
    update_field l i (FieldUpdate.name v) = (l.set i { s0 with name := v }, true) := by
  simp [update_field, hi, hv]

theorem update_field_valid_age (l : List Student) (i : Nat) (s0 : Student)
    (v : Int) (hi : l[i]? = some s0) (hv : validate_age v = true) :
    update_field l i (FieldUpdate.age v) = (l.set i { s0 with age := v }, true) := by
  simp [update_field, hi, hv]

theorem update_field_valid_cgpa (l : List Student) (i : Nat) (s0 : Student)
    (v : ℚ) (hi : l[i]? = some s0) (hv : validate_cgpa v = true) :
    update_field l i (FieldUpdate.cgpa v) = (l.set i { s0 with cgpa := v }, true) := by
  simp [update_field, hi, hv]

theorem list_set_getElem_self {α : Type} (l : List α) (i : Nat) (a : α)
    (h : l[i]? = some a) : l.set i a = l := by
  apply List.ext_getElem?
  intro j
  by_cases hj : i = j
  · subst hj
    rw [List.getElem?_set_self ((List.getElem?_eq_some_iff.mp h).1), h]
  · rw [List.getElem?_set_ne hj]

/-- C7: `update_field` keeps the collection size and order, leaves every
other position untouched, does nothing (and triggers no save) when the new
value fails its field's validator, and otherwise mutates exactly the selected
field of the selected record to the new value, keeping that record's other
fields (in particular its roll number) and triggering a save. -/
theorem update_field_spec (l : List Student) (i : Nat) (u : FieldUpdate) :
    ((update_field l i u).1.length = l.length) ∧
    (∀ j : Nat, j ≠ i → (update_field l i u).1[j]? = l[j]?) ∧
    (fieldUpdateValid u = false → update_field l i u = (l, false)) ∧
    (∀ s : Student, l[i]? = some s → fieldUpdateValid u = true →
      (update_field l i u).2 = true ∧
      ∃ s' : Student, (update_field l i u).1[i]? = some s' ∧
        s'.roll_number = s.roll_number ∧
        (∀ v, u = FieldUpdate.name v → s' = { s with name := v }) ∧
        (∀ v, u = FieldUpdate.age v → s' = { s with age := v }) ∧
        (∀ v, u = FieldUpdate.cgpa v → s' = { s with cgpa := v })) := by
  cases hi : l[i]? with
  | none =>
    rw [update_field_none l i u hi]
    exact ⟨rfl, fun j hj => rfl, fun _ => rfl, fun s hs _ => Option.noConfusion hs⟩
  | some s0 =>
    by_cases hv : fieldUpdateValid u = true
    · cases u with
      | name v =>
        have hv' : validate_name v = true := by simpa [fieldUpdateValid] using hv
        rw [update_field_valid_name l i s0 v hi hv']
        refine ⟨by simp, fun j hj => List.getElem?_set_ne (Ne.symm hj), ?_, ?_⟩
        · intro hf; rw [hf] at hv; exact Bool.noConfusion hv
        · intro s hs _
          injection hs with h
          subst h
          refine ⟨rfl, _,
            List.getElem?_set_self ((List.getElem?_eq_some_iff.mp hi).1),
            rfl, ?_, ?_, ?_⟩
          · intro w hw; cases hw; rfl
          · intro w hw; cases hw
          · intro w hw; cases hw
      | age v =>
        have hv' : validate_age v = true := by simpa [fieldUpdateValid] using hv
        rw [update_field_valid_age l i s0 v hi hv']
        refine ⟨by simp, fun j hj => List.getElem?_set_ne (Ne.symm hj), ?_, ?_⟩
        · intro hf; rw [hf] at hv; exact Bool.noConfusion hv
        · intro s hs _
          injection hs with h
          subst h
          refine ⟨rfl, _,
            List.getElem?_set_self ((List.getElem?_eq_some_iff.mp hi).1),
            rfl, ?_, ?_, ?_⟩
          · intro w hw; cases hw
          · intro w hw; cases hw; rfl
          · intro w hw; cases hw
      | cgpa v =>
        have hv' : validate_cgpa v = true := by simpa [fieldUpdateValid] using hv
        rw [update_field_valid_cgpa l i s0 v hi hv']
        refine ⟨by simp, fun j hj => List.getElem?_set_ne (Ne.symm hj), ?_, ?_⟩
        · intro hf; rw [hf] at hv; exact Bool.noConfusion hv
        · intro s hs _
          injection hs with h
          subst h
          refine ⟨rfl, _,
            List.getElem?_set_self ((List.getElem?_eq_some_iff.mp hi).1),
            rfl, ?_, ?_, ?_⟩
          · intro w hw; cases hw
          · intro w hw; cases hw
          · intro w hw; cases hw; rfl
    · have hvf : fieldUpdateValid u = false := by
        cases hfv : fieldUpdateValid u with
        | false => rfl
        | true => exact absurd hfv hv
      rw [update_field_invalid l i u hvf]
      refine ⟨rfl, fun j hj => rfl, fun _ => rfl, fun s hs hval => ?_⟩
      rw [hvf] at hval
      exact Bool.noConfusion hval

/-- Witness for `update_field_spec`: a concrete valid age update triggers a
save and keeps the collection size. -/
theorem update_field_spec_witness :
    (update_field [wStudentA] 0 (FieldUpdate.age 30)).1.length =
      ([wStudentA] : List Student).length ∧
    (update_field [wStudentA] 0 (FieldUpdate.age 30)).2 = true :=
  ⟨(update_field_spec [wStudentA] 0 (FieldUpdate.age 30)).1,
   ((update_field_spec [wStudentA] 0 (FieldUpdate.age 30)).2.2.2 wStudentA
      (by decide) (by decide)).1⟩

/-- Witness for `update_field_spec` is above; next, C1 machinery: no
operation changes the multiset-of-roll-numbers except an accepted add. -/
theorem update_field_map_roll (l : List Student) (i : Nat) (u : FieldUpdate) :
    (update_field l i u).1.map Student.roll_number = l.map Student.roll_number := by
  cases hi : l[i]? with
  | none => rw [update_field_none l i u hi]
  | some s0 =>
    by_cases hv : fieldUpdateValid u = true
    · cases u with
      | name v =>
        have hv' : validate_name v = true := by simpa [fieldUpdateValid] using hv
        rw [update_field_valid_name l i s0 v hi hv']
        simp only [List.map_set]
        exact list_set_getElem_self _ i _ (by rw [List.getElem?_map, hi]; rfl)
      | age v =>
        have hv' : validate_age v = true := by simpa [fieldUpdateValid] using hv
        rw [update_field_valid_age l i s0 v hi hv']
        simp only [List.map_set]
        exact list_set_getElem_self _ i _ (by rw [List.getElem?_map, hi]; rfl)
      | cgpa v =>
        have hv' : validate_cgpa v = true := by simpa [fieldUpdateValid] using hv
        rw [update_field_valid_cgpa l i s0 v hi hv']
        simp only [List.map_set]
        exact list_set_getElem_self _ i _ (by rw [List.getElem?_map, hi]; rfl)
    · have hvf : fieldUpdateValid u = false := by
        cases hfv : fieldUpdateValid u with
        | false => rfl
        | true => exact absurd hfv hv
      rw [update_field_invalid l i u hvf]

theorem delete_student_sublist (l : List Student) (s : Student) :
    (delete_student l s).Sublist l := by
  induction l with
  | nil => exact List.Sublist.refl _
  | cons x xs ih =>
    rw [delete_student]
    by_cases hxs : x = s
    · rw [if_pos hxs]
      exact List.sublist_cons_self x xs
    · rw [if_neg hxs]
      exact ih.cons₂ x

/-- C1: every collection reachable from the empty collection through the
program's own operations — where an add is accepted only if
`validate_roll_number` holds against the current collection — has
pairwise-distinct roll numbers, and `update_field`, `delete_student` and
`sort_students` all preserve this (none touches a roll number). -/
theorem reachable_roll_numbers_nodup (l : List Student) (h : Reachable l) :
    (l.map Student.roll_number).Nodup := by
  induction h with
  | nil => simp
  | step l op _ ih =>
    cases op with
    | add s =>
      show ((add_student l s).map Student.roll_number).Nodup
      rw [add_student]
      by_cases hval : (validate_name s.name && validate_roll_number l s.roll_number &&
          validate_age s.age && validate_cgpa s.cgpa) = true
      · rw [if_pos hval]
        have hroll : validate_roll_number l s.roll_number = true := by
          simp only [Bool.and_eq_true] at hval
          exact hval.1.1.2
        have hnotmem : s.roll_number ∉ l.map Student.roll_number := by
          simp only [validate_roll_number, Bool.and_eq_true, Bool.not_eq_true',
            List.any_eq_false, beq_iff_eq] at hroll
          intro hmem
          obtain ⟨t, ht, hteq⟩ := List.mem_map.mp hmem
          exact absurd hteq (hroll.2 t ht)
        rw [List.map_append]
        refine List.Nodup.append ih (List.nodup_singleton _) ?_
        intro x hx hx2
        rw [List.map_cons, List.map_nil, List.mem_singleton] at hx2
        subst hx2
        exact hnotmem hx
      · rw [if_neg hval]
        exact ih
    | update i u =>
      show (((update_field l i u).1).map Student.roll_number).Nodup
      rw [update_field_map_roll]
      exact ih
    | del s =>
      show ((delete_student l s).map Student.roll_number).Nodup
      exact List.Nodup.sublist ((delete_student_sublist l s).map Student.roll_number) ih
    | sort k =>
      show ((sort_students k l).map Student.roll_number).Nodup
      have hperm : List.Perm ((sort_students k l).map Student.roll_number)
          (l.map Student.roll_number) :=
        (List.mergeSort_perm l (sortKeyLe k)).map Student.roll_number
      exact hperm.nodup_iff.mpr ih

/-- Witness for `reachable_roll_numbers_nodup`: the collection obtained by
one accepted add from the empty collection. -/
theorem reachable_roll_numbers_nodup_witness :
    ((applyOp [] (Op.add wStudentA)).map Student.roll_number).Nodup :=
  reachable_roll_numbers_nodup _ (Reachable.step [] (Op.add wStudentA) Reachable.nil)

theorem student_round_trip (s : Student) :
    student_from_json (student_to_json s) = some s := rfl

/-- C2: saving the collection and loading it back yields the identical
sequence of records — same length, same order, every field value preserved
exactly, with the integer-versus-float distinction of the numeric fields
intact (`roll_number` and `age` are written and re-read as JSON integers,
`cgpa` as a JSON float). -/
theorem save_load_round_trip (l : List Student) :
    load_students_json (save_students_json l) = some l := by
  rw [save_students_json, load_students_json]
  induction l with
  | nil => rfl
  | cons s ss ih =>
    simp only [List.map_cons, List.mapM_cons, student_round_trip, ih,
      Option.pure_def, Option.bind_some, Option.bind_eq_bind]
    rfl

/-- C8: `load_students` returns the empty collection when the data file is
missing, returns the empty collection (after reporting the error) on any
read or parse failure, and is a total function on every outcome of the file
system — no load failure escapes as an exception. -/
theorem load_students_failure_empty :
    load_students LoadSource.missing = [] ∧
    (∀ msg : String, load_students (LoadSource.failure msg) = []) ∧
    (∀ src : LoadSource, load_students src = [] ∨
      ∃ data : List Student,
        src = LoadSource.parsed data ∧ load_students src = data) := by
  refine ⟨rfl, fun msg => rfl, fun src => ?_⟩
  cases src with
  | missing => exact Or.inl rfl
  | failure msg => exact Or.inl rfl
  | parsed data => exact Or.inr ⟨data, rfl, rfl⟩

/-- C9: on the empty collection `export_to_csv` writes no file and yields the
user-visible "No students to export." message; on a non-empty collection the
output is the header row holding the four field names in declaration order,
followed by exactly one comma-separated row per record in collection order. -/
theorem export_to_csv_spec (l : List Student) :
    (l = [] → export_to_csv l = Except.error "No students to export.") ∧
    (l ≠ [] → export_to_csv l =
      Except.ok (String.intercalate "," csv_field_names ::
        l.map (fun s => String.intercalate ","
          [toString s.roll_number, csvQuote s.name, toString s.age,
           float_repr s.cgpa]))) ∧
    (∀ rows, export_to_csv l = Except.ok rows → rows.length = l.length + 1) := by
  refine ⟨?_, ?_, ?_⟩
  · intro h
    subst h
    rfl
  · intro h
    rw [export_to_csv, if_neg (by simpa using h)]
    rfl
  · intro rows hr
    rw [export_to_csv] at hr
    by_cases h : l.isEmpty = true
    · rw [if_pos h] at hr
      cases hr
    · rw [if_neg h] at hr
      injection hr with h2
      subst h2
      simp

/-- Witness for `export_to_csv_spec`: the empty collection produces the
"no students" outcome. -/
theorem export_to_csv_spec_witness :
    export_to_csv [] = Except.error "No students to export." :=
  (export_to_csv_spec []).1 rfl
